import Mathlib

/-!
Verification development for the poster-wall generator `gen_poster.py` of the
jellyfin-library-poster repository.

The Python source is shallowly embedded below.  Machine integers are modeled
as `Int`; Python float arithmetic on small integer inputs is modeled by the
exact fraction it computes, kept as an integer numerator and denominator with
explicit truncation (`Int.tdiv`) or rounding where the source converts back
to 8-bit channels (for the magnitudes appearing here, IEEE double arithmetic
and exact arithmetic agree after the conversion); fallible operations return
`Except`; PIL images are modeled as a size together with a total pixel
function.  External PIL primitives that the source calls but does not define
(Gaussian blur) are taken as parameters constrained only by their documented
properties.
-/

/-- An RGBA pixel; channels are unbounded integers, since the Python source
manipulates plain `int` channel values (and can in fact exceed 255). -/
structure Pixel where
  r : ℤ
  g : ℤ
  b : ℤ
  a : ℤ
deriving DecidableEq, Repr

/-- An RGB color triple, as passed for the gradient endpoint colors. -/
structure RGB where
  r : ℤ
  g : ℤ
  b : ℤ
deriving DecidableEq, Repr

/-- A pixel is a valid 8-bit RGBA tuple when every channel is within 0..255. -/
def validRGBA (p : Pixel) : Prop :=
  0 ≤ p.r ∧ p.r ≤ 255 ∧ 0 ≤ p.g ∧ p.g ≤ 255 ∧ 0 ≤ p.b ∧ p.b ≤ 255 ∧
    0 ≤ p.a ∧ p.a ≤ 255

instance (p : Pixel) : Decidable (validRGBA p) := by
  unfold validRGBA; infer_instance

/-- A PIL image: a width, a height and a total pixel function.  Pixels
outside the `width × height` rectangle are irrelevant (PIL clips them);
all statements below are restricted to in-bounds coordinates. -/
structure Img where
  width : ℕ
  height : ℕ
  pix : ℕ → ℕ → Pixel

/-- `Image.new("RGBA", (w, h), c)`: a constant image. -/
def imageNew (w h : ℕ) (c : Pixel) : Img :=
  { width := w, height := h, pix := fun _ _ => c }

/-- One channel of the gradient at column `x`, from
`int(color1[i] + (color2[i] - color1[i]) * x / width)`
(gen_poster.py lines 534-536).  The Python expression evaluates the exact
rational `(c1 * width + (c2 - c1) * x) / width` (for the 8-bit channel
magnitudes involved, IEEE double arithmetic agrees with the exact rational
after the final `int(...)`), and `int(...)` truncates toward zero, which is
`Int.tdiv` of the numerator by the denominator. -/
def gradChannel (c1 c2 : ℤ) (x width : ℕ) : ℤ :=
  Int.tdiv (c1 * width + (c2 - c1) * x) width

/-- The RGBA color of the vertical gradient line drawn at column `x`. -/
def gradColor (c1 c2 : RGB) (x width : ℕ) : Pixel :=
  { r := gradChannel c1.r c2.r x width
    g := gradChannel c1.g c2.g x width
    b := gradChannel c1.b c2.b x width
    a := 255 }

/-- `draw.line([(x, 0), (x, height)], fill = c)`: overwrite column `x`.
The whole column of the total pixel function is overwritten; in-bounds
pixels agree with PIL, which clips the segment to the canvas. -/
def drawVLine (img : Img) (x : ℕ) (c : Pixel) : Img :=
  { img with pix := fun x' y' => if x' = x then c else img.pix x' y' }

/-- `create_gradient_background(width, height, color1, color2)` with both
colors explicitly supplied (gen_poster.py lines 527-541): start from a
canvas filled with `color1` (PIL fills alpha with 255 for a 3-tuple) and
draw one interpolated vertical line per column. -/
def create_gradient_background (width height : ℕ) (color1 color2 : RGB) : Img :=
  (List.range width).foldl
    (fun img x => drawVLine img x (gradColor color1 color2 x width))
    (imageNew width height { r := color1.r, g := color1.g, b := color1.b, a := 255 })

/-- After folding the vertical lines over a list of columns not containing
`x`, column `x` is untouched. -/
theorem foldl_drawVLine_pix_of_not_mem (f : ℕ → Pixel) :
    ∀ (l : List ℕ) (img : Img) (x y : ℕ), x ∉ l →
      ((l.foldl (fun img x => drawVLine img x (f x)) img).pix x y) = img.pix x y
  | [], _, _, _, _ => rfl
  | a :: t, img, x, y, h => by
    have hxa : x ≠ a := fun hx => h (hx ▸ List.mem_cons_self a t)
    have hxt : x ∉ t := fun hx => h (List.mem_cons_of_mem a hx)
    rw [List.foldl_cons, foldl_drawVLine_pix_of_not_mem f t _ x y hxt]
    simp [drawVLine, hxa]

/-- After folding the vertical lines over a duplicate-free list of columns
containing `x`, column `x` holds the line color for `x`. -/
theorem foldl_drawVLine_pix_of_mem (f : ℕ → Pixel) :
    ∀ (l : List ℕ) (img : Img) (x y : ℕ), x ∈ l → l.Nodup →
      ((l.foldl (fun img x => drawVLine img x (f x)) img).pix x y) = f x
  | a :: t, img, x, y, hmem, hnd => by
    rcases List.mem_cons.mp hmem with hxa | hxt
    · subst hxa
      have hat : x ∉ t := (List.nodup_cons.mp hnd).1
      rw [List.foldl_cons, foldl_drawVLine_pix_of_not_mem f t _ x y hat]
      simp [drawVLine]
    · exact foldl_drawVLine_pix_of_mem f t _ x y hxt (List.nodup_cons.mp hnd).2

/-- C3: for every width > 0, height > 0 and two explicitly supplied RGB
colors, `create_gradient_background` returns a full-opacity image in which
every pixel in column x has channel value
`channel(x) = c1 + (c2 - c1) * x / width` (integer-truncated), all pixels
within one column being equal; every pixel at x = 0 equals color1. -/
theorem claim_C3 (width height : ℕ) (color1 color2 : RGB) (x y : ℕ)
    (hw : 0 < width) (_hh : 0 < height) (hx : x < width) (_hy : y < height) :
    (create_gradient_background width height color1 color2).pix x y
        = gradColor color1 color2 x width ∧
    (∀ y', y' < height →
      (create_gradient_background width height color1 color2).pix x y'
        = (create_gradient_background width height color1 color2).pix x y) ∧
    (x = 0 → (create_gradient_background width height color1 color2).pix x y
        = { r := color1.r, g := color1.g, b := color1.b, a := 255 }) := by
  have key : ∀ y'' : ℕ,
      (create_gradient_background width height color1 color2).pix x y''
        = gradColor color1 color2 x width := by
    intro y''
    exact foldl_drawVLine_pix_of_mem _ (List.range width) _ x y''
      (List.mem_range.mpr hx) (List.nodup_range width)
  refine ⟨key y, fun y' _ => (key y').trans (key y).symm, fun hx0 => ?_⟩
  subst hx0
  rw [key y]
  have hch : ∀ c1 c2 : ℤ, gradChannel c1 c2 0 width = c1 := by
    intro c1 c2
    unfold gradChannel
    rw [Nat.cast_zero, mul_zero, add_zero,
      Int.mul_tdiv_cancel _ (by exact_mod_cast hw.ne')]
  simp [gradColor, hch]

/-- Concrete instantiation of `claim_C3`. -/
theorem claim_C3_witness :
    (create_gradient_background 2 1 ⟨10, 20, 30⟩ ⟨20, 30, 40⟩).pix 1 0
        = ⟨15, 25, 35, 255⟩ ∧
    (create_gradient_background 2 1 ⟨10, 20, 30⟩ ⟨20, 30, 40⟩).pix 0 0
        = ⟨10, 20, 30, 255⟩ := by
  have h1 := claim_C3 2 1 ⟨10, 20, 30⟩ ⟨20, 30, 40⟩ 1 0
    (by decide) (by decide) (by decide) (by decide)
  have h0 := claim_C3 2 1 ⟨10, 20, 30⟩ ⟨20, 30, 40⟩ 0 0
    (by decide) (by decide) (by decide) (by decide)
  exact ⟨h1.1.trans (by decide), h0.2.2 rfl⟩

/-- Round-half-up of the exact fraction `n / d` (`d > 0`), via
`⌊n/d + 1/2⌋ = ⌊(2n + d) / (2d)⌋`.  This models the rounding PIL applies
when converting its float compositing results back to 8-bit channels; the
statements below rely on it only at points where the fraction is an exact
integer, where every rounding convention agrees. -/
def roundFrac (n d : ℤ) : ℤ :=
  Int.fdiv (2 * n + d) (2 * d)

/-- One channel of PIL `paste` with an 8-bit mask value `m`:
`dst * (255 - m) / 255 + src * m / 255`, rounded. -/
def blendCh (dc sc m : ℤ) : ℤ :=
  roundFrac (dc * (255 - m) + sc * m) 255

/-- `Image.paste(src, pos, mask)` restricted to the rectangle of `src`:
without a mask the source pixel is copied verbatim; with `useAlphaMask` the
source's own alpha band is the mask and every channel (alpha included) is
blended.  Pixels outside the pasted rectangle are untouched. -/
def pasteMasked (dst src : Img) (posx posy : ℕ) (useAlphaMask : Bool) : Img :=
  { dst with pix := fun x y =>
      if posx ≤ x ∧ x < posx + src.width ∧ posy ≤ y ∧ y < posy + src.height then
        let sp := src.pix (x - posx) (y - posy)
        let dp := dst.pix x y
        if useAlphaMask then
          { r := blendCh dp.r sp.r sp.a, g := blendCh dp.g sp.g sp.a
            b := blendCh dp.b sp.b sp.a, a := blendCh dp.a sp.a sp.a }
        else sp
      else dst.pix x y }

/-- `Image.alpha_composite` on a single pixel pair (`s` over `d`):
`out_a = s_a + d_a * (255 - s_a) / 255`, premultiplied channels, written
with explicit integer numerators over the exact common denominator
`na = 255 * out_a`. -/
def alphaCompositePix (d s : Pixel) : Pixel :=
  let na : ℤ := 255 * s.a + d.a * (255 - s.a)
  { r := if na = 0 then 0 else roundFrac (255 * s.r * s.a + d.r * d.a * (255 - s.a)) na
    g := if na = 0 then 0 else roundFrac (255 * s.g * s.a + d.g * d.a * (255 - s.a)) na
    b := if na = 0 then 0 else roundFrac (255 * s.b * s.a + d.b * d.a * (255 - s.a)) na
    a := roundFrac na 255 }

/-- `Image.alpha_composite(im1, im2)`: `im2` composited over `im1`;
PIL requires the sizes to match and returns that common size. -/
def alphaComposite (im1 im2 : Img) : Img :=
  { width := im1.width, height := im1.height
    pix := fun x y => alphaCompositePix (im1.pix x y) (im2.pix x y) }

/-- `add_shadow(img, offset, shadow_color, blur_radius)`
(gen_poster.py lines 12-49).  `blurOp` stands for the external PIL
primitive `ImageFilter.GaussianBlur(blur_radius)`; it is a parameter of the
embedding because the source does not define it.  `GaussianBlur(0)` is the
identity.  All input images in the workflow are RGBA, so the paste mask
branch `img if img.mode == "RGBA" else None` always passes the mask. -/
def add_shadow (blurOp : Img → Img) (img : Img) (offsetx offsety : ℕ)
    (shadow_color : Pixel) (blur_radius : ℕ) : Img :=
  let shadow_width := img.width + offsetx + blur_radius * 2
  let shadow_height := img.height + offsety + blur_radius * 2
  let shadow := imageNew shadow_width shadow_height ⟨0, 0, 0, 0⟩
  let shadow_layer := imageNew img.width img.height shadow_color
  let shadow := pasteMasked shadow shadow_layer
    (blur_radius + offsetx) (blur_radius + offsety) false
  let shadow := blurOp shadow
  let result := imageNew shadow.width shadow.height ⟨0, 0, 0, 0⟩
  let result := pasteMasked result img blur_radius blur_radius true
  alphaComposite shadow result

/-- An exact fraction rounds to its value: `roundFrac (s * d) d = s`. -/
theorem roundFrac_exact (s d : ℤ) (hd : 0 < d) : roundFrac (s * d) d = s := by
  unfold roundFrac
  rw [Int.fdiv_eq_ediv _ (by omega)]
  have h1 : 2 * (s * d) + d = d * (2 * s + 1) := by ring
  have h2 : 2 * d = d * 2 := by ring
  rw [h1, h2, Int.mul_ediv_mul_of_pos _ _ hd]
  omega

/-- Blending with a full mask value returns the source channel exactly. -/
theorem blendCh_full (dc sc : ℤ) : blendCh dc sc 255 = sc := by
  unfold blendCh
  have h : dc * (255 - 255) + sc * 255 = sc * 255 := by ring
  rw [h]
  exact roundFrac_exact sc 255 (by norm_num)

/-- Compositing a fully opaque source pixel over anything returns the
source pixel exactly. -/
theorem alphaCompositePix_opaque (d s : Pixel) (h : s.a = 255) :
    alphaCompositePix d s = s := by
  have key : ∀ sc dc : ℤ,
      (if (255 * 255 + d.a * (255 - 255) : ℤ) = 0 then 0
       else roundFrac (255 * sc * 255 + dc * d.a * (255 - 255))
         (255 * 255 + d.a * (255 - 255))) = sc := by
    intro sc dc
    have hna : (255 * 255 + d.a * (255 - 255) : ℤ) = 65025 := by ring
    rw [hna, if_neg (by norm_num)]
    have hnum : (255 * sc * 255 + dc * d.a * (255 - 255) : ℤ) = sc * 65025 := by
      ring
    rw [hnum]
    exact roundFrac_exact sc 65025 (by norm_num)
  have ha : roundFrac (255 * 255 + d.a * (255 - 255)) 255 = 255 := by
    have hna : (255 * 255 + d.a * (255 - 255) : ℤ) = 255 * 255 := by ring
    rw [hna]
    exact roundFrac_exact 255 255 (by norm_num)
  cases s with
  | mk sr sg sb sa =>
    simp only at h
    subst h
    unfold alphaCompositePix
    simp only [Pixel.mk.injEq]
    exact ⟨key sr d.r, key sg d.g, key sb d.b, ha⟩

/-- C4: for every input image, offset and blur radius (with the blur
primitive preserving dimensions, as PIL's GaussianBlur does), `add_shadow`
returns an image of size
`(width + offset_x + 2 * blur_radius, height + offset_y + 2 * blur_radius)`. -/
theorem claim_C4 (blurOp : Img → Img) (img : Img) (offsetx offsety : ℕ)
    (shadow_color : Pixel) (blur_radius : ℕ)
    (hblur : ∀ i : Img, (blurOp i).width = i.width ∧ (blurOp i).height = i.height) :
    (add_shadow blurOp img offsetx offsety shadow_color blur_radius).width
        = img.width + offsetx + 2 * blur_radius ∧
    (add_shadow blurOp img offsetx offsety shadow_color blur_radius).height
        = img.height + offsety + 2 * blur_radius := by
  unfold add_shadow alphaComposite
  constructor
  · show (blurOp _).width = _
    rw [(hblur _).1]
    show img.width + offsetx + blur_radius * 2 = _
    ring
  · show (blurOp _).height = _
    rw [(hblur _).2]
    show img.height + offsety + blur_radius * 2 = _
    ring

/-- Concrete instantiation of `claim_C4` (radius-0 Gaussian blur is the
identity). -/
theorem claim_C4_witness :
    (add_shadow id (imageNew 1 1 ⟨0, 0, 0, 255⟩) 5 5 ⟨0, 0, 0, 100⟩ 3).width = 12 ∧
    (add_shadow id (imageNew 1 1 ⟨0, 0, 0, 255⟩) 5 5 ⟨0, 0, 0, 100⟩ 3).height = 12 := by
  have h := claim_C4 id (imageNew 1 1 ⟨0, 0, 0, 255⟩) 5 5 ⟨0, 0, 0, 100⟩ 3
    (fun _ => ⟨rfl, rfl⟩)
  exact ⟨h.1.trans (by decide), h.2.trans (by decide)⟩

/-- C5 (amended): `add_shadow` pastes the original image at
`(blur_radius, blur_radius)` using its own alpha as mask, and composites it
over the blurred shadow; consequently every pixel where the original's
alpha is 255 carries exactly the original's pixel value (RGB and alpha) in
the output. -/
theorem claim_C5_amended (blurOp : Img → Img) (img : Img) (offsetx offsety : ℕ)
    (shadow_color : Pixel) (blur_radius : ℕ) (x y : ℕ)
    (hx : x < img.width) (hy : y < img.height) (ha : (img.pix x y).a = 255) :
    (add_shadow blurOp img offsetx offsety shadow_color blur_radius).pix
        (x + blur_radius) (y + blur_radius) = img.pix x y := by
  unfold add_shadow alphaComposite
  show alphaCompositePix _
    ((pasteMasked (imageNew _ _ ⟨0, 0, 0, 0⟩) img blur_radius blur_radius true).pix
      (x + blur_radius) (y + blur_radius)) = _
  have hres : (pasteMasked (imageNew (blurOp
        (pasteMasked (imageNew (img.width + offsetx + blur_radius * 2)
          (img.height + offsety + blur_radius * 2) ⟨0, 0, 0, 0⟩)
          (imageNew img.width img.height shadow_color)
          (blur_radius + offsetx) (blur_radius + offsety) false)).width
        (blurOp (pasteMasked (imageNew (img.width + offsetx + blur_radius * 2)
          (img.height + offsety + blur_radius * 2) ⟨0, 0, 0, 0⟩)
          (imageNew img.width img.height shadow_color)
          (blur_radius + offsetx) (blur_radius + offsety) false)).height
        ⟨0, 0, 0, 0⟩) img blur_radius blur_radius true).pix
      (x + blur_radius) (y + blur_radius) = img.pix x y := by
    unfold pasteMasked
    simp only
    rw [if_pos ⟨Nat.le_add_left _ _, by omega, Nat.le_add_left _ _, by omega⟩]
    simp only [if_pos rfl, Nat.add_sub_cancel]
    rw [ha]
    simp only [blendCh_full]
    rw [← ha]
    simp
  rw [hres]
  exact alphaCompositePix_opaque _ _ ha

/-- Concrete instantiation of `claim_C5_amended`. -/
theorem claim_C5_witness :
    (add_shadow id (imageNew 1 1 ⟨10, 20, 30, 255⟩) 5 5 ⟨0, 0, 0, 100⟩ 3).pix
        (0 + 3) (0 + 3) = (imageNew 1 1 ⟨10, 20, 30, 255⟩).pix 0 0 :=
  claim_C5_amended id (imageNew 1 1 ⟨10, 20, 30, 255⟩) 5 5 ⟨0, 0, 0, 100⟩ 3 0 0
    (by decide) (by decide) rfl

/-- Modelled from the spec: the C5 claim that `add_shadow` "paints a solid
shadow-colored silhouette of the input image (following the input's own
shape/alpha)".  A silhouette following the input's alpha is empty for a
fully transparent input, so under the claim the output of `add_shadow`
would be fully transparent for such inputs (taking blur radius 0, whose
Gaussian blur is the identity, so the blur cannot introduce opacity). -/
def shadowFollowsInputAlpha : Prop :=
  ∀ (img : Img) (offsetx offsety : ℕ) (shadow_color : Pixel),
    (∀ x y, (img.pix x y).a = 0) →
    ∀ x y, ((add_shadow id img offsetx offsety shadow_color 0).pix x y).a = 0

/-- C5 counterexample: the code pastes a solid shadow-colored rectangle of
the input's full size with no mask (gen_poster.py lines 32-35), ignoring
the input's alpha, so a fully transparent 1x1 input still produces a
shadow-colored, partially opaque output pixel. -/
theorem claim_C5_counterexample : ¬ shadowFollowsInputAlpha := by
  intro h
  have h0 := h (imageNew 1 1 ⟨0, 0, 0, 0⟩) 0 0 ⟨0, 0, 0, 100⟩ (fun _ _ => rfl) 0 0
  exact absurd h0 (by decide)

/-- Python exception values relevant to the embedded code paths. -/
inductive PyErr
  | valueError
  | indexError
  | ioError
deriving DecidableEq, Repr

/-- The value returned by `get_poster_primary_color`: either a single RGBA
4-tuple (the default/fallback returns) or a pair of colors (the
`common_colors[0][0], common_colors[1][0]` return). -/
inductive ColorResult
  | single (c : Pixel)
  | pair (c1 c2 : Pixel)
deriving DecidableEq, Repr

/-- The strong pixel filter of `get_poster_primary_color`
(gen_poster.py lines 580-596): keep a pixel when its alpha is at least 200
and its brightness `(r + g + b) / 3` (exact rational) is between 30 and
220 inclusive, i.e. `90 ≤ r + g + b ≤ 660`. -/
def strongKeep (p : Pixel) : Bool :=
  200 ≤ p.a && (90 ≤ p.r + p.g + p.b && p.r + p.g + p.b ≤ 660)

/-- The filtered pixel population; kept pixels are stored as
`(r, g, b, 255)`. -/
def strongFilter (pixels : List Pixel) : List Pixel :=
  (pixels.filter strongKeep).map (fun p => ⟨p.r, p.g, p.b, 255⟩)

/-- The weaker alpha-only retry filter (gen_poster.py line 600):
`[(p[0], p[1], p[2], 255) for p in pixels if p[3] > 100]`. -/
def weakFilter (pixels : List Pixel) : List Pixel :=
  (pixels.filter (fun p => 100 < p.a)).map (fun p => ⟨p.r, p.g, p.b, 255⟩)

/-- Keys of a Python dict built by repeated insertion: the distinct
elements of the list in first-occurrence order. -/
def firstOccurAux : List Pixel → List Pixel → List Pixel
  | _, [] => []
  | seen, x :: xs =>
    if x ∈ seen then firstOccurAux seen xs
    else x :: firstOccurAux (x :: seen) xs

/-- `collections.Counter(l).items()`: the distinct colors in
first-occurrence order, each with its multiplicity in `l`. -/
def counterItems (l : List Pixel) : List (Pixel × ℕ) :=
  (firstOccurAux [] l).map (fun c => (c, l.count c))

/-- Order for `Counter.most_common`: larger counts first. -/
def countDesc (a b : Pixel × ℕ) : Prop :=
  b.2 ≤ a.2

instance : DecidableRel countDesc :=
  fun a b => Nat.decLe b.2 a.2

instance : IsTotal (Pixel × ℕ) countDesc :=
  ⟨fun a b => Nat.le_total b.2 a.2⟩

instance : IsTrans (Pixel × ℕ) countDesc :=
  ⟨fun _ _ _ h1 h2 => Nat.le_trans h2 h1⟩

/-- `Counter.most_common(n)`: the `n` items of largest count.  CPython's
`heapq.nlargest` is documented as equivalent to
`sorted(items, key=count, reverse=True)[:n]` with a stable sort, which a
stable insertion sort under `countDesc` models exactly. -/
def mostCommon (l : List Pixel) (n : ℕ) : List (Pixel × ℕ) :=
  (List.insertionSort countDesc (counterItems l)).take n

/-- The channel-average fallback of `get_poster_primary_color`
(gen_poster.py lines 618-622, Python `//` is floor division); unreachable,
since the population is non-empty whenever it is evaluated. -/
def avgColor (filtered : List Pixel) : ColorResult :=
  .single ⟨Int.fdiv ((filtered.map Pixel.r).sum) filtered.length,
    Int.fdiv ((filtered.map Pixel.g).sum) filtered.length,
    Int.fdiv ((filtered.map Pixel.b).sum) filtered.length, 255⟩

/-- The tail of `get_poster_primary_color` on a filtered population
(gen_poster.py lines 602-622): empty population returns the default single
color; with at least two distinct colors it returns the two most common as
a pair; with exactly one distinct color, `common_colors[1][0]` raises
IndexError, which the function's own `except` catches, returning the
default single color. -/
def fromPopulation (filtered : List Pixel) : ColorResult :=
  if filtered.isEmpty then .single ⟨150, 100, 50, 255⟩
  else
    match mostCommon filtered 5 with
    | i0 :: i1 :: _ => .pair i0.1 i1.1
    | [_] => .single ⟨150, 100, 50, 255⟩
    | [] => avgColor filtered

/-- `get_poster_primary_color(image_path)` (gen_poster.py lines 543-628).
The input models `Image.open` + resize + RGBA conversion: either the
resulting pixel list or the raised exception; any exception gives the
default single color `(150, 100, 50, 255)`. -/
def getPosterPrimaryColor (input : Except PyErr (List Pixel)) : ColorResult :=
  match input with
  | .error _ => .single ⟨150, 100, 50, 255⟩
  | .ok pixels =>
    let filtered := strongFilter pixels
    fromPopulation (if filtered.isEmpty then weakFilter pixels else filtered)

/-- The caller's two-value unpacking
`color1, color2 = get_poster_primary_color(first_image_path)`
(gen_poster.py line 657): unpacking a 4-component single color into two
names raises ValueError. -/
def unpackPair (res : ColorResult) : Except PyErr (Pixel × Pixel) :=
  match res with
  | .pair c1 c2 => .ok (c1, c2)
  | .single _ => .error .valueError

/-- Membership in dict-key insertion order: an element is a key iff it is
in the list and not already seen. -/
theorem mem_firstOccurAux (x : Pixel) :
    ∀ (l seen : List Pixel), x ∈ firstOccurAux seen l ↔ (x ∈ l ∧ x ∉ seen)
  | [], seen => by simp [firstOccurAux]
  | y :: ys, seen => by
    unfold firstOccurAux
    by_cases hy : y ∈ seen
    · rw [if_pos hy, mem_firstOccurAux x ys seen]
      constructor
      · rintro ⟨h1, h2⟩
        exact ⟨List.mem_cons_of_mem _ h1, h2⟩
      · rintro ⟨h1, h2⟩
        rcases List.mem_cons.mp h1 with h1 | h1
        · exact absurd (h1 ▸ hy) h2
        · exact ⟨h1, h2⟩
    · rw [if_neg hy]
      rw [List.mem_cons, mem_firstOccurAux x ys (y :: seen)]
      constructor
      · rintro (h1 | ⟨h1, h2⟩)
        · subst h1
          exact ⟨List.mem_cons_self _ _, hy⟩
        · exact ⟨List.mem_cons_of_mem _ h1,
            fun hc => h2 (List.mem_cons_of_mem _ hc)⟩
      · rintro ⟨h1, h2⟩
        rcases List.mem_cons.mp h1 with h1 | h1
        · exact Or.inl h1
        · by_cases hxy : x = y
          · exact Or.inl hxy
          · exact Or.inr ⟨h1, fun hc => by
              rcases List.mem_cons.mp hc with hc | hc
              · exact hxy hc
              · exact h2 hc⟩

/-- Membership in `counterItems`: exactly the pairs
`(color in the list, its multiplicity)`. -/
theorem mem_counterItems (l : List Pixel) (p : Pixel × ℕ) :
    p ∈ counterItems l ↔ (p.1 ∈ l ∧ p.2 = l.count p.1) := by
  unfold counterItems
  rw [List.mem_map]
  constructor
  · rintro ⟨c, hc, rfl⟩
    exact ⟨((mem_firstOccurAux c l []).mp hc).1, rfl⟩
  · rintro ⟨h1, h2⟩
    refine ⟨p.1, (mem_firstOccurAux p.1 l []).mpr ⟨h1, by simp⟩, ?_⟩
    exact Prod.ext rfl h2.symm

/-- A list holding two distinct elements has length at least two. -/
theorem two_le_length_of_mem_ne {α : Type} {a b : α} {l : List α}
    (ha : a ∈ l) (hb : b ∈ l) (hne : a ≠ b) : 2 ≤ l.length := by
  match l with
  | [] => exact absurd ha (List.not_mem_nil a)
  | [x] =>
    rw [List.mem_singleton] at ha hb
    exact absurd (ha.trans hb.symm) hne
  | x :: y :: t => simp [Nat.succ_le_succ]

/-- For distinct values, the two multiplicities fit inside the length. -/
theorem count_add_count_le_length {a b : Pixel} (l : List Pixel)
    (hne : a ≠ b) : l.count a + l.count b ≤ l.length := by
  induction l with
  | nil => simp
  | cons x t ih =>
    simp only [List.count_cons, List.length_cons]
    split_ifs with h1 h2 h2
    · exact absurd ((eq_of_beq h1).symm.trans (eq_of_beq h2)) hne
    all_goals omega

/-- A list of length at least two starts with two elements. -/
theorem exists_cons_cons_of_two_le_length {α : Type} {l : List α}
    (h : 2 ≤ l.length) : ∃ a b t, l = a :: b :: t := by
  match l with
  | [] => simp at h
  | [x] => simp at h
  | x :: y :: t => exact ⟨x, y, t, rfl⟩

/-- C2 (amended): `get_poster_primary_color` is total; if the strong
filter empties the population it retries with the weak alpha-only filter;
if the population is still empty, or on any exception, it returns the
fixed default — which is a single RGBA 4-tuple `(150, 100, 50, 255)`, not
a two-color pair, so the caller's two-value unpacking raises ValueError on
it (caught only by the workflow's own top-level handler). -/
theorem claim_C2_amended (e : PyErr) (pixels : List Pixel) :
    getPosterPrimaryColor (.error e) = .single ⟨150, 100, 50, 255⟩ ∧
    (strongFilter pixels = [] →
      getPosterPrimaryColor (.ok pixels) = fromPopulation (weakFilter pixels)) ∧
    (strongFilter pixels = [] → weakFilter pixels = [] →
      getPosterPrimaryColor (.ok pixels) = .single ⟨150, 100, 50, 255⟩) ∧
    unpackPair (ColorResult.single ⟨150, 100, 50, 255⟩) = .error .valueError := by
  refine ⟨rfl, ?_, ?_, rfl⟩
  · intro hs
    simp [getPosterPrimaryColor, hs]
  · intro hs hw
    simp [getPosterPrimaryColor, fromPopulation, hs, hw]

/-- Concrete instantiation of `claim_C2_amended`. -/
theorem claim_C2_witness :
    getPosterPrimaryColor (.ok ([] : List Pixel)) = .single ⟨150, 100, 50, 255⟩ ∧
    getPosterPrimaryColor (.error .ioError) = .single ⟨150, 100, 50, 255⟩ := by
  have h := claim_C2_amended .ioError []
  exact ⟨h.2.2.1 rfl rfl, h.1⟩

/-- Modelled from the spec: the C2 claim that the fallback value has "the
same two-color shape as the normal (primary, secondary) result, so the
caller's two-value unpacking always succeeds". -/
def colorPairUnpackAlwaysSucceeds : Prop :=
  ∀ input : Except PyErr (List Pixel),
    ∃ c1 c2, unpackPair (getPosterPrimaryColor input) = .ok (c1, c2)

/-- C2 counterexample: on an exception the function returns the single
4-tuple `(150, 100, 50, 255)` (gen_poster.py line 628), on which the
caller's two-value unpacking raises ValueError instead of succeeding. -/
theorem claim_C2_counterexample : ¬ colorPairUnpackAlwaysSucceeds := by
  intro h
  obtain ⟨c1, c2, hc⟩ := h (.error .ioError)
  simp [getPosterPrimaryColor, unpackPair] at hc

/-- Modelled from the spec: the C8 claim that any color holding a strict
majority of the post-filter pixel population is returned as the primary
(first) component of the result. -/
def majorityColorIsPrimary : Prop :=
  ∀ (pixels : List Pixel) (c : Pixel),
    (strongFilter pixels).length < 2 * (strongFilter pixels).count c →
    ∃ snd, getPosterPrimaryColor (.ok pixels) = .pair c snd

/-- C8 counterexample: a population consisting of a single color (a 100%
majority) makes `common_colors` a one-element list, so
`common_colors[1][0]` raises IndexError and the function returns the
default single color instead of a pair led by the majority color. -/
theorem claim_C8_counterexample : ¬ majorityColorIsPrimary := by
  intro h
  obtain ⟨snd, hs⟩ :=
    h [⟨100, 100, 100, 255⟩] ⟨100, 100, 100, 255⟩ (by decide)
  rw [show getPosterPrimaryColor (.ok [⟨100, 100, 100, 255⟩])
      = .single ⟨150, 100, 50, 255⟩ from by decide] at hs
  exact ColorResult.noConfusion hs

/-- C8 (amended): if a color holds a strict majority of the post-filter
population and the population holds at least one other distinct color,
`get_poster_primary_color` returns a pair whose primary (first) component
is the majority color. -/
theorem claim_C8_amended (pixels : List Pixel) (c : Pixel)
    (hmaj : (strongFilter pixels).length < 2 * (strongFilter pixels).count c)
    (d : Pixel) (hd : d ∈ strongFilter pixels) (hdc : d ≠ c) :
    ∃ snd, getPosterPrimaryColor (.ok pixels) = .pair c snd := by
  have hc_mem : c ∈ strongFilter pixels := by
    rcases Nat.eq_zero_or_pos ((strongFilter pixels).count c) with h0 | h0
    · rw [h0] at hmaj
      omega
    · exact List.count_pos_iff.mp h0
  have hempty : (strongFilter pixels).isEmpty = false := by
    rw [List.isEmpty_eq_false_iff_exists_mem]
    exact ⟨c, hc_mem⟩
  have hcs : (c, (strongFilter pixels).count c) ∈ counterItems (strongFilter pixels) :=
    (mem_counterItems _ _).mpr ⟨hc_mem, rfl⟩
  have hds : (d, (strongFilter pixels).count d) ∈ counterItems (strongFilter pixels) :=
    (mem_counterItems _ _).mpr ⟨hd, rfl⟩
  have hlen2 : 2 ≤ (counterItems (strongFilter pixels)).length :=
    two_le_length_of_mem_ne hds hcs
      (fun hp => hdc (congrArg Prod.fst hp))
  have hperm := List.perm_insertionSort countDesc (counterItems (strongFilter pixels))
  have hlen2' : 2 ≤ (List.insertionSort countDesc (counterItems (strongFilter pixels))).length := by
    rw [hperm.length_eq]
    exact hlen2
  obtain ⟨s0, s1, rest, hsort⟩ := exists_cons_cons_of_two_le_length hlen2'
  have hsorted := List.sorted_insertionSort countDesc (counterItems (strongFilter pixels))
  rw [hsort] at hsorted hperm
  have hmax : ∀ p ∈ s1 :: rest, countDesc s0 p :=
    (List.sorted_cons.mp hsorted).1
  have hs0_mem : s0 ∈ counterItems (strongFilter pixels) :=
    hperm.mem_iff.mp (List.mem_cons_self _ _)
  obtain ⟨hs0_in, hs0_count⟩ := (mem_counterItems _ _).mp hs0_mem
  have hc_sorted : (c, (strongFilter pixels).count c) ∈ s0 :: s1 :: rest :=
    hperm.mem_iff.mpr hcs
  have hs0_fst : s0.1 = c := by
    by_contra hne
    have hcount_lt : (strongFilter pixels).count s0.1 < (strongFilter pixels).count c := by
      have := count_add_count_le_length (a := s0.1) (b := c) (strongFilter pixels) hne
      omega
    rcases List.mem_cons.mp hc_sorted with hc0 | hc1
    · exact hne (congrArg Prod.fst hc0).symm
    · have hle : (strongFilter pixels).count c ≤ s0.2 := hmax _ hc1
      rw [hs0_count] at hle
      omega
  refine ⟨s1.1, ?_⟩
  show fromPopulation (if (strongFilter pixels).isEmpty then weakFilter pixels
    else strongFilter pixels) = _
  rw [hempty]
  show fromPopulation (strongFilter pixels) = _
  unfold fromPopulation
  rw [hempty]
  show (match mostCommon (strongFilter pixels) 5 with
    | i0 :: i1 :: _ => ColorResult.pair i0.1 i1.1
    | [i0] => ColorResult.single ⟨150, 100, 50, 255⟩
    | [] => avgColor (strongFilter pixels)) = _
  unfold mostCommon
  rw [hsort]
  show ColorResult.pair s0.1 s1.1 = _
  rw [hs0_fst]

/-- Concrete instantiation of `claim_C8_amended`: two copies of one color
plus one other color. -/
theorem claim_C8_witness :
    ∃ snd, getPosterPrimaryColor (.ok [⟨100, 100, 100, 255⟩, ⟨100, 100, 100, 255⟩,
      ⟨60, 60, 60, 255⟩]) = .pair ⟨100, 100, 100, 255⟩ snd :=
  claim_C8_amended _ ⟨100, 100, 100, 255⟩ (by decide) ⟨60, 60, 60, 255⟩
    (by decide) (by decide)

/-- Extra column-canvas width budgeted for the right-hand shadow,
`20 + 20 * 2` (gen_poster.py line 725). -/
def shadow_extra_width : ℕ := 20 + 20 * 2

/-- Extra column-canvas height budgeted for the bottom shadow,
`20 + 20 * 2` (gen_poster.py line 726). -/
def shadow_extra_height : ℕ := 20 + 20 * 2

/-- `column_height = rows * cell_height + (rows - 1) * margin`
(gen_poster.py line 722); only evaluated inside the column loop, which is
reached only when `rows ≥ 1` (grouping raises for step 0 before it). -/
def column_height (rows cell_height margin : ℕ) : ℕ :=
  rows * cell_height + (rows - 1) * margin

/-- `rotation_canvas_size = int(math.sqrt(colW ** 2 + colH ** 2) * 1.5)`
(gen_poster.py lines 810-816).  The exact value `1.5 * sqrt D` equals
`sqrt (9 * D) / 2`, the value is nonnegative so `int(...)` is the floor,
and `⌊sqrt (9 * D) / 2⌋ = ⌊⌊sqrt (9 * D)⌋ / 2⌋ = Nat.sqrt (9 * D) / 2`
(float sqrt modeled as exact real sqrt). -/
def rotation_canvas_size (colW colH : ℕ) : ℕ :=
  Nat.sqrt (9 * (colW ^ 2 + colH ^ 2)) / 2

/-- `paste_x = (rotation_canvas_size - cell_width) // 2`
(gen_poster.py line 822): computed from the nominal `cell_width`, not the
actual column-canvas width. -/
def paste_x (canvas_size cell_width : ℕ) : ℕ :=
  (canvas_size - cell_width) / 2

/-- `paste_y = (rotation_canvas_size - column_height) // 2`
(gen_poster.py line 823): computed from the nominal `column_height`, not
the actual column-canvas height. -/
def paste_y (canvas_size col_height : ℕ) : ℕ :=
  (canvas_size - col_height) / 2

/-- Modelled from the spec: the C6 claim that the staging canvas side
length is at least `1.5 * sqrt(colW^2 + colH^2)` for the actual column
canvas dimensions, and that the column canvas is centered within the
staging canvas (paste position `((side - colW) / 2, (side - colH) / 2)`). -/
def rotationCanvasClaim : Prop :=
  ∀ cell_width cell_height rows margin : ℕ,
    (3 : ℝ) * Real.sqrt (((cell_width + shadow_extra_width : ℕ) : ℝ) ^ 2 +
        ((column_height rows cell_height margin + shadow_extra_height : ℕ) : ℝ) ^ 2) / 2
      ≤ ((rotation_canvas_size (cell_width + shadow_extra_width)
          (column_height rows cell_height margin + shadow_extra_height) : ℕ) : ℝ) ∧
    paste_x (rotation_canvas_size (cell_width + shadow_extra_width)
        (column_height rows cell_height margin + shadow_extra_height)) cell_width
      = (rotation_canvas_size (cell_width + shadow_extra_width)
          (column_height rows cell_height margin + shadow_extra_height)
        - (cell_width + shadow_extra_width)) / 2 ∧
    paste_y (rotation_canvas_size (cell_width + shadow_extra_width)
        (column_height rows cell_height margin + shadow_extra_height))
        (column_height rows cell_height margin)
      = (rotation_canvas_size (cell_width + shadow_extra_width)
          (column_height rows cell_height margin + shadow_extra_height)
        - (column_height rows cell_height margin + shadow_extra_height)) / 2

/-- Unfolding equation for `rotation_canvas_size`, kept as a lemma so that
concrete instances rewrite with it instead of asking the kernel to reduce
`Nat.sqrt` on literals. -/
theorem rotation_canvas_size_eq (colW colH : ℕ) :
    rotation_canvas_size colW colH = Nat.sqrt (9 * (colW ^ 2 + colH ^ 2)) / 2 :=
  rfl

/-- C6 counterexample: with `cell_width = 1`, `cell_height = 1`,
`rows = 1`, `margin = 0` the column canvas is 61 x 61, the staging side is
`int(sqrt(7442) * 1.5) = 129`, but `1.5 * sqrt(7442) > 129` (truncation
loses the fractional part), so the claimed lower bound fails. -/
theorem claim_C6_counterexample : ¬ rotationCanvasClaim := by
  intro h
  obtain ⟨h1, -, -⟩ := h 1 1 1 0
  have hch : column_height 1 1 0 = 1 := by norm_num [column_height]
  rw [hch] at h1
  have harg : 9 * ((1 + shadow_extra_width) ^ 2 + (1 + shadow_extra_height) ^ 2)
      = 66978 := by
    norm_num [shadow_extra_width, shadow_extra_height]
  have hsq : (258 : ℕ) = Nat.sqrt 66978 := by
    rw [Nat.eq_sqrt]
    constructor <;> norm_num
  have hs : rotation_canvas_size (1 + shadow_extra_width) (1 + shadow_extra_height)
      = 129 := by
    rw [rotation_canvas_size_eq, harg, ← hsq]
  rw [hs] at h1
  have h86 : (86 : ℝ) < Real.sqrt (((1 + shadow_extra_width : ℕ) : ℝ) ^ 2 +
      ((1 + shadow_extra_height : ℕ) : ℝ) ^ 2) := by
    rw [Real.lt_sqrt (by norm_num)]
    norm_num [shadow_extra_width, shadow_extra_height]
  have : (129 : ℝ) < 3 * Real.sqrt (((1 + shadow_extra_width : ℕ) : ℝ) ^ 2 +
      ((1 + shadow_extra_height : ℕ) : ℝ) ^ 2) / 2 := by
    linarith
  have h129 : ((129 : ℕ) : ℝ) = (129 : ℝ) := by norm_num
  rw [h129] at h1
  linarith

/-- C6 (amended): the staging side is exactly the integer truncation of
`1.5 * sqrt(colW^2 + colH^2)` - characterized without real numbers by
`(2 * side)^2 ≤ 9 * (colW^2 + colH^2) < (2 * side + 2)^2` (so the side is
within 1 below the claimed bound, never at or above it unless exact) -
and the paste position is `((side - cell_width) / 2,
(side - column_height) / 2)`: it centers the nominal
`cell_width x column_height` region, not the shadow-padded column canvas. -/
theorem claim_C6_amended (cell_width cell_height rows margin : ℕ) :
    (2 * rotation_canvas_size (cell_width + shadow_extra_width)
        (column_height rows cell_height margin + shadow_extra_height)) ^ 2
      ≤ 9 * ((cell_width + shadow_extra_width) ^ 2 +
          (column_height rows cell_height margin + shadow_extra_height) ^ 2) ∧
    9 * ((cell_width + shadow_extra_width) ^ 2 +
        (column_height rows cell_height margin + shadow_extra_height) ^ 2)
      < (2 * rotation_canvas_size (cell_width + shadow_extra_width)
          (column_height rows cell_height margin + shadow_extra_height) + 2) ^ 2 ∧
    paste_x (rotation_canvas_size (cell_width + shadow_extra_width)
        (column_height rows cell_height margin + shadow_extra_height)) cell_width
      = (rotation_canvas_size (cell_width + shadow_extra_width)
          (column_height rows cell_height margin + shadow_extra_height)
        - cell_width) / 2 ∧
    paste_y (rotation_canvas_size (cell_width + shadow_extra_width)
        (column_height rows cell_height margin + shadow_extra_height))
        (column_height rows cell_height margin)
      = (rotation_canvas_size (cell_width + shadow_extra_width)
          (column_height rows cell_height margin + shadow_extra_height)
        - column_height rows cell_height margin) / 2 := by
  set D := 9 * ((cell_width + shadow_extra_width) ^ 2 +
    (column_height rows cell_height margin + shadow_extra_height) ^ 2) with hD
  have hs : rotation_canvas_size (cell_width + shadow_extra_width)
      (column_height rows cell_height margin + shadow_extra_height)
      = Nat.sqrt D / 2 := rfl
  have h1 := Nat.sqrt_le D
  have h2 := Nat.lt_succ_sqrt D
  rw [hs]
  refine ⟨?_, ?_, rfl, rfl⟩
  · have hle : 2 * (Nat.sqrt D / 2) ≤ Nat.sqrt D := by omega
    calc (2 * (Nat.sqrt D / 2)) ^ 2
        = (2 * (Nat.sqrt D / 2)) * (2 * (Nat.sqrt D / 2)) := by ring
      _ ≤ Nat.sqrt D * Nat.sqrt D := Nat.mul_le_mul hle hle
      _ ≤ D := h1
  · have hge : Nat.sqrt D + 1 ≤ 2 * (Nat.sqrt D / 2) + 2 := by omega
    calc D < (Nat.sqrt D + 1) * (Nat.sqrt D + 1) := h2
      _ ≤ (2 * (Nat.sqrt D / 2) + 2) * (2 * (Nat.sqrt D / 2) + 2) :=
          Nat.mul_le_mul hge hge
      _ = (2 * (Nat.sqrt D / 2) + 2) ^ 2 := by ring

/-- The Python image mode of an opened file. -/
inductive ImgMode
  | rgba
  | rgb
  | other
deriving DecidableEq, Repr

/-- `get_random_color(image_path)` (gen_poster.py lines 128-167) as a
function of the opened image's mode and the pixel sampled at the
pseudo-random coordinates (the coordinates themselves do not affect which
transformation is applied).  For "RGBA" images the sampled 4-tuple is
returned unmodified; for "RGB" images the sampled 3-tuple `(r, g, b)`
becomes `(r + 100, g + 50, b, 255)` with no clamping (the alpha field of
the modeled input pixel is unused, mirroring PIL's 3-tuple `getpixel`);
any other mode is converted to RGBA first and the sampled converted pixel
is returned unmodified. -/
def get_random_color (mode : ImgMode) (p : Pixel) : Pixel :=
  match mode with
  | .rgba => p
  | .rgb => ⟨p.r + 100, p.g + 50, p.b, 255⟩
  | .other => p

/-- C10: for RGB-mode images `get_random_color` returns
`(r + 100, g + 50, b, 255)`, so a sampled pixel with `r > 155` or
`g > 205` yields a channel above 255 and the accent color is not a valid
8-bit RGBA tuple; RGBA-mode and other-mode images return the sampled
pixel's channels unmodified. -/
theorem claim_C10 (p : Pixel) :
    get_random_color .rgb p = ⟨p.r + 100, p.g + 50, p.b, 255⟩ ∧
    (155 < p.r → ¬ validRGBA (get_random_color .rgb p)) ∧
    (205 < p.g → ¬ validRGBA (get_random_color .rgb p)) ∧
    get_random_color .rgba p = p ∧
    get_random_color .other p = p := by
  refine ⟨rfl, ?_, ?_, rfl, rfl⟩
  · intro hr hv
    obtain ⟨-, h2, -⟩ := hv
    revert h2
    show ¬ (get_random_color .rgb p).r ≤ 255
    show ¬ p.r + 100 ≤ 255
    omega
  · intro hg hv
    obtain ⟨-, -, -, h4, -⟩ := hv
    revert h4
    show ¬ (get_random_color .rgb p).g ≤ 255
    show ¬ p.g + 50 ≤ 255
    omega

/-- Concrete instantiation of `claim_C10`. -/
theorem claim_C10_witness :
    get_random_color .rgb ⟨200, 210, 50, 0⟩ = ⟨300, 260, 50, 255⟩ ∧
    ¬ validRGBA (get_random_color .rgb ⟨200, 210, 50, 0⟩) := by
  have h := claim_C10 ⟨200, 210, 50, 0⟩
  exact ⟨h.1.trans (by decide), h.2.1 (by decide)⟩

/-- A directory entry as the workflow sees it: the `os.path.splitext` stem
and extension of the filename, and whether `os.path.isfile` holds for it. -/
structure DirEntry where
  stem : String
  ext : String
  isFile : Bool
deriving DecidableEq, Repr

/-- The supported image extensions (gen_poster.py line 672);
`f.lower().endswith(supported_formats)` on a filename whose extension is
its final dot-suffix is extension membership after lowercasing. -/
def supported_formats : List String :=
  [".jpg", ".jpeg", ".png", ".bmp", ".gif", ".webp"]

/-- The custom priority string `"315426987"` (gen_poster.py line 674) as
the list of its one-digit stems, in order. -/
def custom_order : List String :=
  ["3", "1", "5", "4", "2", "6", "9", "8", "7"]

/-- `order_map[stem]` (gen_poster.py line 676): the position of the stem
in the priority string, when it occurs there. -/
def orderIndex (stem : String) : Option ℕ :=
  custom_order.findIdx? (fun s => s == stem)

/-- The sort key `order_map[os.path.splitext(os.path.basename(x))[0]]`
(gen_poster.py line 688); every sorted entry passed the filter, so the
lookup never misses and the default is irrelevant. -/
def orderKey (e : DirEntry) : ℕ :=
  (orderIndex e.stem).getD 0

/-- The listing comprehension filter (gen_poster.py lines 679-687):
regular file, supported extension, stem present in `order_map`. -/
def posterEligible (e : DirEntry) : Bool :=
  e.isFile && supported_formats.contains e.ext.toLower
    && (orderIndex e.stem).isSome

/-- Priority order on entries. -/
def orderKeyLe (a b : DirEntry) : Prop :=
  orderKey a ≤ orderKey b

instance : DecidableRel orderKeyLe :=
  fun _ _ => Nat.decLe _ _

instance : IsTotal DirEntry orderKeyLe :=
  ⟨fun _ _ => Nat.le_total _ _⟩

instance : IsTrans DirEntry orderKeyLe :=
  ⟨fun _ _ _ => Nat.le_trans⟩

/-- `poster_files = sorted([... filtered ...], key = order_map[stem])`
(gen_poster.py lines 679-689).  Python's `sorted` is stable; Mathlib's
insertion sort is the matching stable sort. -/
def posterFilesOf (entries : List DirEntry) : List DirEntry :=
  List.insertionSort orderKeyLe (entries.filter posterEligible)

/-- `[poster_files[i : i + rows] for i in range(0, len(poster_files), rows)]`
(gen_poster.py lines 707-709), for `rows ≥ 1` (on `rows = 0` Python's
`range` raises ValueError, which the embedded workflow models separately
before this is evaluated; the recursion below uses
`xs.drop (rows - 1) = (x :: xs).drop rows`, valid for `rows ≥ 1`). -/
def chunkList {α : Type} (rows : ℕ) : List α → List (List α)
  | [] => []
  | x :: xs => (x :: xs).take rows :: chunkList rows (xs.drop (rows - 1))
termination_by l => l.length
decreasing_by
  simp only [List.length_drop, List.length_cons]
  omega

/-- The chunks of `chunkList` concatenate back to the original list. -/
theorem chunkList_join {α : Type} (rows : ℕ) (hrows : 1 ≤ rows) :
    ∀ l : List α, (chunkList rows l).flatten = l
  | [] => by rw [chunkList]; rfl
  | x :: xs => by
    rw [chunkList, List.flatten_cons,
      chunkList_join rows hrows (xs.drop (rows - 1))]
    have hdrop : xs.drop (rows - 1) = (x :: xs).drop rows := by
      cases rows with
      | zero => omega
      | succ n => rfl
    rw [hdrop, List.take_append_drop]
termination_by l => l.length
decreasing_by
  simp only [List.length_drop, List.length_cons]
  omega

/-- Every chunk is non-empty and holds at most `rows` elements. -/
theorem chunkList_mem_le {α : Type} (rows : ℕ) (hrows : 1 ≤ rows) :
    ∀ (l : List α) (g : List α), g ∈ chunkList rows l → g.length ≤ rows ∧ g ≠ []
  | [], g, hg => by rw [chunkList] at hg; exact absurd hg (List.not_mem_nil g)
  | x :: xs, g, hg => by
    rw [chunkList] at hg
    rcases List.mem_cons.mp hg with hg | hg
    · subst hg
      refine ⟨by simp, ?_⟩
      cases rows with
      | zero => omega
      | succ n => simp [List.take]
    · exact chunkList_mem_le rows hrows _ g hg
termination_by l => l.length
decreasing_by
  simp only [List.length_drop, List.length_cons]
  omega

/-- `chunkList` yields no chunks only for the empty list. -/
theorem chunkList_eq_nil_iff {α : Type} (rows : ℕ) :
    ∀ l : List α, chunkList rows l = [] ↔ l = []
  | [] => by rw [chunkList]; simp
  | x :: xs => by rw [chunkList]; simp

/-- Every chunk except possibly the last holds exactly `rows` elements. -/
theorem chunkList_dropLast {α : Type} (rows : ℕ) (hrows : 1 ≤ rows) :
    ∀ (l : List α) (g : List α), g ∈ (chunkList rows l).dropLast →
      g.length = rows
  | [], g, hg => by rw [chunkList] at hg; exact absurd hg (List.not_mem_nil g)
  | x :: xs, g, hg => by
    rw [chunkList] at hg
    rcases hrest : chunkList rows (xs.drop (rows - 1)) with - | ⟨r0, rs⟩
    · rw [hrest] at hg
      exact absurd hg (List.not_mem_nil g)
    · rw [hrest, List.dropLast_cons₂] at hg
      rcases List.mem_cons.mp hg with hg | hg
      · subst hg
        have hne : xs.drop (rows - 1) ≠ [] := by
          intro hnil
          rw [hnil, chunkList] at hrest
          exact List.noConfusion hrest
        have hlen : rows - 1 < xs.length := by
          by_contra hle
          push_neg at hle
          exact hne (List.drop_eq_nil_of_le hle)
        have : rows ≤ (x :: xs).length := by
          rw [List.length_cons]
          omega
        simpa using Nat.min_eq_left this
      · rw [← hrest] at hg
        exact chunkList_dropLast rows hrows _ g hg
termination_by l => l.length
decreasing_by
  simp only [List.length_drop, List.length_cons]
  omega

/-- C9: the workflow considers only files whose filename stem is a digit
of the priority string "315426987", sorts them by that digit's position in
the priority string, truncates the sorted list to at most `rows * cols`
entries, and partitions it into consecutive groups of `rows` images (the
last group possibly shorter), processing at most `cols` groups as columns. -/
theorem claim_C9 (entries : List DirEntry) (rows cols : ℕ) (hrows : 1 ≤ rows) :
    (∀ e ∈ posterFilesOf entries, (orderIndex e.stem).isSome = true) ∧
    List.Sorted orderKeyLe (posterFilesOf entries) ∧
    ((posterFilesOf entries).take (rows * cols)).length ≤ rows * cols ∧
    (chunkList rows ((posterFilesOf entries).take (rows * cols))).flatten
      = (posterFilesOf entries).take (rows * cols) ∧
    (∀ g ∈ chunkList rows ((posterFilesOf entries).take (rows * cols)),
      g.length ≤ rows ∧ g ≠ []) ∧
    (∀ g ∈ (chunkList rows ((posterFilesOf entries).take (rows * cols))).dropLast,
      g.length = rows) ∧
    ((chunkList rows ((posterFilesOf entries).take (rows * cols))).take cols).length
      ≤ cols := by
  refine ⟨?_, List.sorted_insertionSort _ _, by simp,
    chunkList_join rows hrows _,
    fun g hg => chunkList_mem_le rows hrows _ g hg,
    fun g hg => chunkList_dropLast rows hrows _ g hg,
    by simp⟩
  intro e he
  have hmem : e ∈ entries.filter posterEligible :=
    (List.perm_insertionSort orderKeyLe _).mem_iff.mp he
  have hp := List.of_mem_filter hmem
  unfold posterEligible at hp
  simp only [Bool.and_eq_true] at hp
  exact hp.2

/-- Concrete instantiation of `claim_C9`, on a listing with an eligible
lowercase entry, an eligible uppercase-extension entry, a stem outside the
priority digits, an unsupported extension and a non-file. -/
theorem claim_C9_witness :
    (∀ e ∈ posterFilesOf [⟨"1", ".jpg", true⟩, ⟨"2", ".JPG", true⟩,
        ⟨"x", ".jpg", true⟩, ⟨"3", ".txt", true⟩, ⟨"5", ".png", false⟩],
      (orderIndex e.stem).isSome = true) ∧
    (chunkList 2 ((posterFilesOf [⟨"1", ".jpg", true⟩, ⟨"2", ".JPG", true⟩,
        ⟨"x", ".jpg", true⟩, ⟨"3", ".txt", true⟩, ⟨"5", ".png", false⟩]).take
        (2 * 2))).flatten
      = (posterFilesOf [⟨"1", ".jpg", true⟩, ⟨"2", ".JPG", true⟩,
        ⟨"x", ".jpg", true⟩, ⟨"3", ".txt", true⟩, ⟨"5", ".png", false⟩]).take
        (2 * 2) := by
  have h := claim_C9 [⟨"1", ".jpg", true⟩, ⟨"2", ".JPG", true⟩,
    ⟨"x", ".jpg", true⟩, ⟨"3", ".txt", true⟩, ⟨"5", ".png", false⟩] 2 2
    (by decide)
  exact ⟨h.1, h.2.2.2.1⟩

/-- A secondary (English) title is represented by the list
`text.split(" ")` of its space-separated pieces; the map
`pieces ↦ " ".join(pieces)` is a bijection between piece lists and title
strings, so quantifying over piece lists quantifies over titles.
`word_count = len(library_eng_name.split())` (gen_poster.py line 903):
for space-and-printable-character titles, `split()` is `split(" ")` with
empty pieces dropped. -/
def word_count (lines : List String) : ℕ :=
  (lines.filter (fun t => t != "")).length

/-- `max_chars_per_line = max([len(word) for word in split()])`
(gen_poster.py line 904).  On an empty `split()` Python's `max` raises
ValueError (modeled separately in the workflow embedding); the `0` default
of the fold is never reached under the theorems' hypotheses. -/
def max_chars_per_line (lines : List String) : ℕ :=
  ((lines.filter (fun t => t != "")).map String.length).foldr max 0

/-- The font size applied to the secondary title (gen_poster.py lines
899-916): base size 50pt; when the longest token exceeds 10 characters or
there are more than 3 tokens,
`base * (10 / max(max_chars_per_line, word_count * 3)) ** 0.8`, floored at
30pt (`font_size = max(font_size, 30)`).  Python float arithmetic is
modeled as exact real arithmetic. -/
noncomputable def font_size (lines : List String) : ℝ :=
  if 10 < max_chars_per_line lines ∨ 3 < word_count lines then
    max (50 * ((10 : ℝ) /
      ((max (max_chars_per_line lines) (word_count lines * 3) : ℕ) : ℝ))
        ^ (0.8 : ℝ)) 30
  else 50

/-- The line count returned by `draw_multiline_text_on_image`
(gen_poster.py lines 110-125): the pieces of `text.split(" ")`, one line
each, except that a zero-or-one-piece text is drawn as a single line. -/
def line_count (lines : List String) : ℕ :=
  if lines.length ≤ 1 then 1 else lines.length

/-- Key numeric bounds: `3 / 5 < (5 / 6) ^ 0.8 < 1`. -/
theorem rpow_five_sixths_bounds :
    (3 / 5 : ℝ) < ((5 : ℝ) / 6) ^ (0.8 : ℝ) ∧ ((5 : ℝ) / 6) ^ (0.8 : ℝ) < 1 := by
  constructor
  · by_contra hle
    push_neg at hle
    have h5 : (((5 : ℝ) / 6) ^ (0.8 : ℝ)) ^ (5 : ℕ) ≤ ((3 : ℝ) / 5) ^ (5 : ℕ) :=
      pow_le_pow_left₀ (Real.rpow_nonneg (by norm_num) _) hle 5
    have heq : (((5 : ℝ) / 6) ^ (0.8 : ℝ)) ^ (5 : ℕ) = ((5 : ℝ) / 6) ^ (4 : ℕ) := by
      rw [← Real.rpow_natCast (((5 : ℝ) / 6) ^ (0.8 : ℝ)) 5,
        ← Real.rpow_mul (by norm_num : (0 : ℝ) ≤ 5 / 6)]
      rw [show (0.8 : ℝ) * ((5 : ℕ) : ℝ) = ((4 : ℕ) : ℝ) by push_cast; norm_num]
      rw [Real.rpow_natCast]
    rw [heq] at h5
    norm_num at h5
  · exact Real.rpow_lt_one (by norm_num) (by norm_num) (by norm_num)

/-- The maximum of a non-empty constant list is the constant. -/
theorem foldr_max_const (n : ℕ) :
    ∀ L : List ℕ, L ≠ [] → (∀ x ∈ L, x = n) → L.foldr max 0 = n
  | [], h, _ => absurd rfl h
  | [x], _, hall => by simp [hall x (by simp)]
  | x :: y :: t, _, hall => by
    rw [List.foldr_cons,
      foldr_max_const n (y :: t) (by simp)
        (fun z hz => hall z (List.mem_cons_of_mem _ hz)),
      hall x (by simp)]
    simp

/-- C7: one line is rendered per space-delimited token; the applied font
size is 50pt when the longest token has at most 10 characters and there
are at most 3 tokens, and otherwise
`50 * (10 / max(longest, 3 * count)) ^ 0.8` floored at 30pt; a single
token of at most 10 characters gives 50pt and one line; four tokens of
five characters each give a size strictly between 30 and 50 and four
lines. -/
theorem claim_C7 (lines : List String) (hne : lines ≠ [])
    (hnb : ∀ t ∈ lines, t ≠ "") :
    (max_chars_per_line lines ≤ 10 ∧ word_count lines ≤ 3 →
      font_size lines = 50) ∧
    (10 < max_chars_per_line lines ∨ 3 < word_count lines →
      font_size lines = max (50 * ((10 : ℝ) /
        ((max (max_chars_per_line lines) (word_count lines * 3) : ℕ) : ℝ))
          ^ (0.8 : ℝ)) 30) ∧
    line_count lines = lines.length ∧
    (∀ t : String, lines = [t] → t.length ≤ 10 →
      font_size lines = 50 ∧ line_count lines = 1) ∧
    ((∀ t ∈ lines, t.length = 5) → lines.length = 4 →
      30 < font_size lines ∧ font_size lines < 50 ∧ line_count lines = 4) := by
  have hfilter : lines.filter (fun t => t != "") = lines := by
    rw [List.filter_eq_self]
    intro t ht
    simpa using hnb t ht
  refine ⟨?_, ?_, ?_, ?_, ?_⟩
  · intro ⟨h1, h2⟩
    unfold font_size
    rw [if_neg]
    omega
  · intro h
    unfold font_size
    rw [if_pos h]
  · unfold line_count
    rcases lines with - | ⟨t, ts⟩
    · exact absurd rfl hne
    · rcases ts with - | ⟨u, us⟩
      · rfl
      · simp
  · rintro t rfl ht
    constructor
    · unfold font_size
      rw [if_neg]
      unfold max_chars_per_line word_count
      rw [hfilter]
      simp only [List.map_cons, List.map_nil, List.foldr_cons, List.foldr_nil,
        List.length_cons, List.length_nil]
      omega
    · rfl
  · intro hlen5 hlen4
    have hwc : word_count lines = 4 := by
      unfold word_count
      rw [hfilter, hlen4]
    have hmc : max_chars_per_line lines = 5 := by
      unfold max_chars_per_line
      rw [hfilter]
      refine foldr_max_const 5 _ ?_ ?_
      · simp [hne]
      · intro x hx
        obtain ⟨t, ht, rfl⟩ := List.mem_map.mp hx
        exact hlen5 t ht
    have hcond : 10 < max_chars_per_line lines ∨ 3 < word_count lines := by
      right
      omega
    have hval : font_size lines
        = max (50 * ((5 : ℝ) / 6) ^ (0.8 : ℝ)) 30 := by
      unfold font_size
      rw [if_pos hcond, hmc, hwc]
      norm_num
    obtain ⟨hlow, hhigh⟩ := rpow_five_sixths_bounds
    have h30 : (30 : ℝ) < 50 * ((5 : ℝ) / 6) ^ (0.8 : ℝ) := by nlinarith
    have h50 : 50 * ((5 : ℝ) / 6) ^ (0.8 : ℝ) < 50 := by nlinarith
    refine ⟨?_, ?_, ?_⟩
    · rw [hval]
      exact lt_max_of_lt_left h30
    · rw [hval, max_eq_left (le_of_lt h30)]
      exact h50
    · unfold line_count
      rw [hlen4]
      simp

/-- Concrete instantiation of `claim_C7`: a four-token title of length-5
tokens and a single short token. -/
theorem claim_C7_witness :
    (30 < font_size ["abcde", "abcde", "abcde", "abcde"] ∧
      font_size ["abcde", "abcde", "abcde", "abcde"] < 50 ∧
      line_count ["abcde", "abcde", "abcde", "abcde"] = 4) ∧
    (font_size ["Movie"] = 50 ∧ line_count ["Movie"] = 1) := by
  have h4 := claim_C7 ["abcde", "abcde", "abcde", "abcde"] (by decide) (by decide)
  have h1 := claim_C7 ["Movie"] (by decide) (by decide)
  exact ⟨h4.2.2.2.2 (by decide) (by decide), h1.2.2.2.1 "Movie" rfl (by decide)⟩

/-- One entry of `config.TEMPLATE_MAPPING`: a library name with optional
localized display names (absent dict keys modeled as `none`). -/
structure TemplateEntry where
  libraryName : String
  chName : Option String
  engName : Option String

/-- The `config.POSTER_GEN_CONFIG` scalars read by the workflow
(gen_poster.py lines 644-652 and 703-704). -/
structure GenPosterConfig where
  rows : ℕ
  cols : ℕ
  margin : ℕ
  cornerRadius : ℕ
  rotationAngle : ℤ
  startX : ℤ
  startY : ℤ
  columnSpacing : ℤ
  saveColumns : Bool
  cellWidth : ℕ
  cellHeight : ℕ

/-- The workflow's interactions with the outside world (configuration,
filesystem, PIL file I/O, font loading), each modeled by the value or the
exception it produces.  Pure computations are not part of the
environment; they are embedded as the functions defined above. -/
structure WorkflowEnv where
  cfg : GenPosterConfig
  name : String
  templateMapping : List TemplateEntry
  firstImagePixels : Except PyErr (List Pixel)
  makedirsResult : Except PyErr Unit
  listing : Except PyErr (List DirEntry)
  saveColumnOriginal : ℕ → Except PyErr Unit
  saveColumnRotated : ℕ → Except PyErr Unit
  randomPixelMode : ImgMode
  randomPixel : Pixel
  fontLoadCh : Except PyErr Unit
  fontLoadEn : Except PyErr Unit
  saveResult : Except PyErr Unit

/-- Localized-name resolution (gen_poster.py lines 872-888): the first
template whose `library_name` equals the input name wins; no match or
absent keys leave the defaults `(name, "")`. -/
def resolveNames (mapping : List TemplateEntry) (name : String) :
    String × String :=
  match mapping.find? (fun t => t.libraryName == name) with
  | some t => (t.chName.getD name, t.engName.getD "")
  | none => (name, "")

/-- The effectful steps of one column iteration (gen_poster.py lines
714-857): with `save_columns` set, the original and then the rotated
column image are saved, either of which may raise.  Every per-image
failure inside the column is swallowed by the inner `try/except` (lines
737-796), and the compositing itself is pure, so no other step of the
loop raises. -/
def processColumn (env : WorkflowEnv) (i : ℕ) : Except PyErr Unit :=
  if env.cfg.saveColumns then
    match env.saveColumnOriginal i with
    | .error e => .error e
    | .ok _ => env.saveColumnRotated i
  else .ok ()

/-- Run the per-column saves over the processed column indices in order,
stopping at the first exception. -/
def runSaves (env : WorkflowEnv) : List ℕ → Except PyErr Unit
  | [] => .ok ()
  | i :: rest =>
    match processColumn env i with
    | .error e => .error e
    | .ok _ => runSaves env rest

/-- The secondary-title block (gen_poster.py lines 897-949): skipped
entirely when the English name is empty; for a non-empty name whose
`split()` is empty (whitespace-only), `max([])` on line 904 raises
ValueError; otherwise the only fallible step is loading the Latin font
(text drawing and the accent color block are pure). -/
def drawEnglish (env : WorkflowEnv) (engName : String) : Except PyErr Unit :=
  if engName == "" then .ok ()
  else
    if ((engName.splitOn " ").filter (fun t => t != "")).isEmpty then
      .error .valueError
    else env.fontLoadEn

/-- The body of `gen_poster_workflow` inside its `try` (gen_poster.py
lines 636-955), sequencing the fallible steps in source order; `.error`
models a raised Python exception propagating to the top-level handler:
unpacking the primary-color result (line 657), `os.makedirs` (lines
663-669), `os.listdir` (line 683), the empty-listing early `return False`
(lines 692-696), `range(0, n, 0)` raising ValueError when `rows = 0`
(line 708), the per-column intermediate saves, and the final `result.save`
(line 951). -/
def gen_poster_workflow_body (env : WorkflowEnv) : Except PyErr Bool :=
  match unpackPair (getPosterPrimaryColor env.firstImagePixels) with
  | .error e => .error e
  | .ok _colors =>
    match env.makedirsResult with
    | .error e => .error e
    | .ok _ =>
      match env.listing with
      | .error e => .error e
      | .ok entries =>
        let poster_files := posterFilesOf entries
        if poster_files.isEmpty then .ok false
        else
          let kept := poster_files.take (env.cfg.rows * env.cfg.cols)
          if env.cfg.rows = 0 then .error .valueError
          else
            let grouped := chunkList env.cfg.rows kept
            match runSaves env (List.range (min grouped.length env.cfg.cols)) with
            | .error e => .error e
            | .ok _ =>
              let _accent := get_random_color env.randomPixelMode env.randomPixel
              let names := resolveNames env.templateMapping env.name
              match env.fontLoadCh with
              | .error e => .error e
              | .ok _ =>
                match drawEnglish env names.2 with
                | .error e => .error e
                | .ok _ =>
                  match env.saveResult with
                  | .error e => .error e
                  | .ok _ => .ok true

/-- `gen_poster_workflow(name)` (gen_poster.py lines 630-962): the entire
body runs inside `try`, and `except Exception` (line 957) converts any
raised exception into a logged `return False`. -/
def gen_poster_workflow (env : WorkflowEnv) : Bool :=
  match gen_poster_workflow_body env with
  | .ok b => b
  | .error _ => false

/-- C1: `gen_poster_workflow` returns a boolean for every environment;
any exception raised anywhere in the body is caught at the top level and
converted to a `False` return, and whenever the directory listing
succeeds but contains no supported image whose stem is a priority digit,
the workflow logs an error and returns `False` (whatever the earlier
fallible steps did). -/
theorem claim_C1 (env : WorkflowEnv) (l : List DirEntry) :
    (∀ e : PyErr, gen_poster_workflow_body env = .error e →
      gen_poster_workflow env = false) ∧
    (env.listing = .ok l → posterFilesOf l = [] →
      gen_poster_workflow env = false) := by
  constructor
  · intro e he
    unfold gen_poster_workflow
    rw [he]
  · intro hl hempty
    unfold gen_poster_workflow gen_poster_workflow_body
    rw [hl]
    cases hpc : unpackPair (getPosterPrimaryColor env.firstImagePixels) with
    | error e => rfl
    | ok c =>
      cases hmk : env.makedirsResult with
      | error e => rfl
      | ok u =>
        simp only [hempty]
        rfl

/-- Concrete instantiation of `claim_C1`: a successful environment whose
poster directory listing is empty. -/
theorem claim_C1_witness :
    gen_poster_workflow
      { cfg := ⟨3, 3, 10, 0, 0, 0, 0, 0, false, 100, 150⟩
        name := "Movies"
        templateMapping := []
        firstImagePixels := .ok [⟨100, 100, 100, 255⟩, ⟨60, 60, 60, 255⟩]
        makedirsResult := .ok ()
        listing := .ok []
        saveColumnOriginal := fun _ => .ok ()
        saveColumnRotated := fun _ => .ok ()
        randomPixelMode := .rgba
        randomPixel := ⟨1, 2, 3, 255⟩
        fontLoadCh := .ok ()
        fontLoadEn := .ok ()
        saveResult := .ok () } = false :=
  (claim_C1 _ []).2 rfl (by decide)
